import Mathlib

/-!
Shallow embedding of the core of `sys-utils/lsmem.c` (util-linux):
the block classifier (`memory_block_read_attrs`), the range merger
(`is_mergeable` and the merge loop of `read_info`), the aggregator
(the totals loop of `read_info`), and the fatal checks of
`read_basic_info`.  Arrays are modelled as Lean lists; the `blocks`
array of `struct lsmem_desc`, which the C code grows at the end and
whose last element is the open range, is modelled as a reversed list
whose head is the open range (`desc->blocks[desc->nblocks-1]`), with a
final `List.reverse` recovering the array order.
-/

/-- Memory states from lsmem.c lines 41-44: MEMORY_STATE_ONLINE,
MEMORY_STATE_OFFLINE, MEMORY_STATE_GOING_OFFLINE, MEMORY_STATE_UNKNOWN.
The classifier only ever produces these four values. -/
inductive MemState where
  | Online
  | Offline
  | GoingOffline
  | Unknown
deriving DecidableEq, Repr

/-- `struct memory_block` (lsmem.c lines 46-52): index, count, state,
node, removable. -/
structure memory_block where
  index : Nat
  count : Nat
  state : MemState
  node : Int
  removable : Bool
deriving DecidableEq, Repr

/-- The merge-relevant configuration bits of `struct lsmem_desc`
(lsmem.c lines 54-75): the `list_all`, `want_node`, `want_state`,
`want_removable` and `have_nodes` flags. -/
structure lsmem_desc where
  have_nodes : Bool
  list_all : Bool
  want_node : Bool
  want_state : Bool
  want_removable : Bool
deriving DecidableEq, Repr

/-- Column ids, lsmem.c lines 77-84. -/
def COL_RANGE : Nat := 0
def COL_SIZE : Nat := 1
def COL_STATE : Nat := 2
def COL_REMOVABLE : Nat := 3
def COL_BLOCK : Nat := 4
def COL_NODE : Nat := 5

/-- `has_column` (lsmem.c lines 153-161): whether a column id occurs in
the configured columns array. -/
def has_column (columns : List Nat) (id : Nat) : Bool :=
  columns.contains id

/-- The default column set installed by `main` (lsmem.c lines 465-471):
RANGE, SIZE, STATE, REMOVABLE, BLOCK. -/
def default_columns : List Nat :=
  [COL_RANGE, COL_SIZE, COL_STATE, COL_REMOVABLE, COL_BLOCK]

/-- The desc flags derived by `main` (lsmem.c lines 498-503) from the
default columns, with no `-a` flag and no node support detected. -/
def default_desc : lsmem_desc :=
  { have_nodes := false
    list_all := false
    want_node := has_column default_columns COL_NODE
    want_state := has_column default_columns COL_STATE
    want_removable := has_column default_columns COL_REMOVABLE }

/-- `is_mergeable` (lsmem.c lines 281-301), with `curr` passed
explicitly: in the C code `curr = &desc->blocks[desc->nblocks - 1]` is
the open range; the guard `if (!desc->nblocks) return 0;` is the empty
match arm of `merge_step` below.  Returns whether the incoming block
`blk` is merged into `curr`. -/
def is_mergeable (desc : lsmem_desc) (curr blk : memory_block) : Bool :=
  if desc.list_all then false
  else if curr.index + curr.count ≠ blk.index then false
  else if desc.want_state ∧ curr.state ≠ blk.state then false
  else if desc.want_removable ∧ curr.removable ≠ blk.removable then false
  else if desc.want_node ∧ desc.have_nodes ∧ curr.node ≠ blk.node then false
  else true

/-- One iteration of the merge loop of `read_info` (lsmem.c lines
312-321) on the reversed blocks list (head = open range): if mergeable,
`desc->blocks[desc->nblocks - 1].count++`; otherwise append `blk` as a
fresh range. -/
def merge_step (desc : lsmem_desc) (acc : List memory_block)
    (blk : memory_block) : List memory_block :=
  match acc with
  | [] => [blk]
  | curr :: rest =>
    if is_mergeable desc curr blk then
      { curr with count := curr.count + 1 } :: rest
    else
      blk :: curr :: rest

/-- The whole merge pass of `read_info` (lsmem.c lines 312-321): fold
the classified blocks through `merge_step`, then restore array order. -/
def read_info_merge (desc : lsmem_desc) (blks : List memory_block) :
    List memory_block :=
  (blks.foldl (merge_step desc) []).reverse

/-- The totals loop of `read_info` (lsmem.c lines 322-327):
`mem_online += block_size * count` when the state is ONLINE, otherwise
`mem_offline += block_size * count`.  Result: (mem_online, mem_offline). -/
def read_info_totals (block_size : Nat) (ranges : List memory_block) :
    Nat × Nat :=
  ranges.foldl
    (fun acc b =>
      if b.state = MemState.Online then
        (acc.1 + block_size * b.count, acc.2)
      else
        (acc.1, acc.2 + block_size * b.count))
    (0, 0)

/-- `read_info` (lsmem.c lines 303-328) after classification: the merge
pass followed by the totals loop.  Returns (ranges, mem_online,
mem_offline). -/
def read_info (desc : lsmem_desc) (block_size : Nat)
    (blks : List memory_block) : List memory_block × Nat × Nat :=
  let ranges := read_info_merge desc blks
  (ranges, read_info_totals block_size ranges)

/-- State-string classification of `memory_block_read_attrs` (lsmem.c
lines 269-276): `blk->state` starts as UNKNOWN and is overwritten when
the string is one of the three recognized values. -/
def classify_state (line : String) : MemState :=
  if line = "offline" then MemState.Offline
  else if line = "online" then MemState.Online
  else if line = "going-offline" then MemState.GoingOffline
  else MemState.Unknown

/-- Modelled from the spec: `path_read_str` lives in lib/path.c, which
is not under src/.  Per the spec, the run "fails with a fatal I/O error
only if the state attribute cannot be read at all"; an unrecognized
value is still a successful read.  `none` stands for an unreadable
attribute and aborts the run, `some line` returns the raw string. -/
def path_read_str (raw : Option String) : Except String String :=
  match raw with
  | none => Except.error "cannot read state"
  | some line => Except.ok line

/-- `memory_block_read_attrs` (lsmem.c lines 261-279): builds the
classified block with `count = 1`, the index parsed from the name, the
removable flag, the classified state, and — only when `have_nodes` —
the node id.  When node-awareness is off the C code leaves `blk->node`
unset and no reader ever consults it; `0` stands for that arbitrary
value here. -/
def memory_block_read_attrs (have_nodes : Bool) (name_index : Nat)
    (removable : Bool) (state_raw : Option String) (node : Int) :
    Except String memory_block := do
  let line ← path_read_str state_raw
  pure { index := name_index, count := 1, state := classify_state line,
         removable := removable, node := if have_nodes then node else 0 }

/-- The fatal checks of `read_basic_info` (lsmem.c lines 337-352): the
block-size attribute must exist (line 341) and `scandir` must yield a
positive number of entries (line 347); then node-awareness is probed on
the first entry (line 350).  The directory scan itself is external; its
result (`ndirs`, and the node probe of the first entry) is an input. -/
def read_basic_info (block_size_attr_exists : Bool) (ndirs : Int)
    (first_node : Int) : Except String Bool :=
  if ¬block_size_attr_exists then
    Except.error "This system does not support memory blocks"
  else if ndirs ≤ 0 then
    Except.error "Failed to read /sys/devices/system/memory"
  else
    Except.ok (first_node ≠ -1)

/-! ## Derived quantities and sample data -/

/-- Total block count carried by a range list. -/
def total_count (l : List memory_block) : Nat :=
  (l.map (fun b => b.count)).sum

/-- Bytes of the ranges whose state is Online. -/
def sum_online (block_size : Nat) (l : List memory_block) : Nat :=
  ((l.filter (fun r => r.state = MemState.Online)).map
    (fun r => block_size * r.count)).sum

/-- Bytes of the ranges whose state is Offline, GoingOffline or Unknown. -/
def sum_offline (block_size : Nat) (l : List memory_block) : Nat :=
  ((l.filter (fun r => r.state = MemState.Offline ∨
      r.state = MemState.GoingOffline ∨ r.state = MemState.Unknown)).map
    (fun r => block_size * r.count)).sum

/-- A one-block classified entry, as produced by the classifier:
count 1, non-removable, node 0. -/
def mk_blk (i : Nat) (s : MemState) : memory_block :=
  { index := i, count := 1, state := s, node := 0, removable := false }

/-- Spec scenario B input: blocks 0-1 Online, block 2 Offline, blocks
3-4 Online, identical removable and node attributes. -/
def scenario_b : List memory_block :=
  [mk_blk 0 MemState.Online, mk_blk 1 MemState.Online,
   mk_blk 2 MemState.Offline, mk_blk 3 MemState.Online,
   mk_blk 4 MemState.Online]

/-- Spec scenario C input: blocks 0 and 2 present, block 1 missing. -/
def scenario_c : List memory_block :=
  [mk_blk 0 MemState.Online, mk_blk 2 MemState.Online]

/-- Spec scenario A input: blocks 0-3 all Online with identical
attributes. -/
def scenario_a : List memory_block :=
  [mk_blk 0 MemState.Online, mk_blk 1 MemState.Online,
   mk_blk 2 MemState.Online, mk_blk 3 MemState.Online]

/-- The default configuration with the `-a` (list every block) flag. -/
def all_desc : lsmem_desc :=
  { default_desc with list_all := true }

/-! ## Helper lemmas about the merge decision -/

/-- A successful merge test implies strict adjacency (lsmem.c line 290). -/
lemma is_mergeable_adjacent (desc : lsmem_desc) (curr blk : memory_block)
    (h : is_mergeable desc curr blk = true) :
    curr.index + curr.count = blk.index := by
  unfold is_mergeable at h
  split_ifs at h with h1 h2 h3 h4 h5
  omega

/-- The merge test never inspects the incoming block's `count` field
(lsmem.c lines 288-300 read only `blk->index`, `blk->state`,
`blk->removable`, `blk->node`). -/
lemma is_mergeable_blk_count (desc : lsmem_desc) (curr blk : memory_block)
    (n : Nat) :
    is_mergeable desc curr { blk with count := n } =
      is_mergeable desc curr blk := rfl

/-- Characterization of `is_mergeable` when the list-all mode is off:
the conjunction of strict adjacency and the three policy-gated
equivalence checks. -/
lemma is_mergeable_true_iff (desc : lsmem_desc) (curr blk : memory_block)
    (h : desc.list_all = false) :
    is_mergeable desc curr blk = true ↔
      (curr.index + curr.count = blk.index ∧
       (desc.want_state = false ∨ curr.state = blk.state) ∧
       (desc.want_removable = false ∨ curr.removable = blk.removable) ∧
       (desc.want_node = false ∨ desc.have_nodes = false ∨
         curr.node = blk.node)) := by
  unfold is_mergeable
  rw [h]
  simp only [Bool.false_eq_true, if_false]
  constructor
  · intro hm
    split_ifs at hm with h1 h2 h3 h4
    push_neg at h1
    refine ⟨h1, ?_, ?_, ?_⟩
    · by_cases hws : desc.want_state = true
      · exact Or.inr (by push_neg at h2; exact h2 hws)
      · exact Or.inl (Bool.not_eq_true _ ▸ hws)
    · by_cases hwr : desc.want_removable = true
      · exact Or.inr (by push_neg at h3; exact h3 hwr)
      · exact Or.inl (Bool.not_eq_true _ ▸ hwr)
    · by_cases hwn : desc.want_node = true
      · by_cases hhn : desc.have_nodes = true
        · exact Or.inr (Or.inr (by push_neg at h4; exact h4 hwn hhn))
        · exact Or.inr (Or.inl (Bool.not_eq_true _ ▸ hhn))
      · exact Or.inl (Bool.not_eq_true _ ▸ hwn)
  · rintro ⟨ha, hs, hr, hn⟩
    split_ifs with h1 h2 h3 h4
    · exact absurd ha h1
    · rcases hs with hs | hs
      · rw [hs] at h2; exact absurd h2.1 (by simp)
      · exact absurd hs h2.2
    · rcases hr with hr | hr
      · rw [hr] at h3; exact absurd h3.1 (by simp)
      · exact absurd hr h3.2
    · rcases hn with hn | hn | hn
      · rw [hn] at h4; exact absurd h4.1 (by simp)
      · rw [hn] at h4; exact absurd h4.2.1 (by simp)
      · exact absurd hn h4.2.2
    · rfl

/-- Scratch checks of the merge decision on concrete inputs. -/
example : is_mergeable default_desc
    { index := 0, count := 1, state := MemState.Online, node := 0,
      removable := false }
    { index := 1, count := 1, state := MemState.Online, node := 0,
      removable := false } = true := by decide

example : is_mergeable default_desc
    { index := 0, count := 1, state := MemState.Online, node := 0,
      removable := false }
    { index := 2, count := 1, state := MemState.Online, node := 0,
      removable := false } = false := by decide

/-! ## Fold invariants of the merge pass -/

/-- Folding blocks of count 1 through the merge loop adds exactly one
to the total count per input block: a merge increments the open range's
count by one, a break appends the block itself. -/
lemma merge_fold_total_count (desc : lsmem_desc) :
    ∀ (blks acc : List memory_block), (∀ b ∈ blks, b.count = 1) →
      total_count (blks.foldl (merge_step desc) acc) =
        total_count acc + blks.length := by
  intro blks
  induction blks with
  | nil => intro acc _; simp
  | cons b bs ih =>
    intro acc hc
    have hb : b.count = 1 := hc b (by simp)
    have hbs : ∀ x ∈ bs, x.count = 1 := fun x hx => hc x (by simp [hx])
    rw [List.foldl_cons, ih _ hbs]
    have hstep : total_count (merge_step desc acc b) = total_count acc + 1 := by
      unfold merge_step
      match acc with
      | [] => simp [total_count, hb]
      | curr :: rest =>
        by_cases hm : is_mergeable desc curr b = true
        · simp only [hm, if_true]
          simp [total_count]
          omega
        · simp only [hm, if_false]
          simp [total_count, hb]
          omega
    rw [hstep]
    simp only [List.length_cons]
    omega

/-- With `list_all` set, `is_mergeable` always refuses (lsmem.c lines
288-289), so the merge loop appends every block unchanged. -/
lemma merge_fold_list_all (desc : lsmem_desc) (h : desc.list_all = true) :
    ∀ (blks acc : List memory_block),
      blks.foldl (merge_step desc) acc = blks.reverse ++ acc := by
  intro blks
  induction blks with
  | nil => intro acc; simp
  | cons b bs ih =>
    intro acc
    have hm : ∀ curr, is_mergeable desc curr b = false := by
      intro curr; unfold is_mergeable; rw [h]; simp
    rw [List.foldl_cons]
    have hstep : merge_step desc acc b = b :: acc := by
      cases acc with
      | nil => rfl
      | cons curr rest => simp [merge_step, hm curr]
    rw [hstep, ih]
    simp

/-- The reversed accumulator always carries the no-further-merge chain:
each element was refused a merge into its successor when it was
appended, and later count increments on the head do not change any
merge test (counts of the tested block are never read). -/
lemma merge_fold_chain (desc : lsmem_desc) :
    ∀ (blks acc : List memory_block),
      List.Chain' (fun a b => is_mergeable desc b a = false) acc →
      List.Chain' (fun a b => is_mergeable desc b a = false)
        (blks.foldl (merge_step desc) acc) := by
  intro blks
  induction blks with
  | nil => intro acc h; simpa using h
  | cons b bs ih =>
    intro acc h
    rw [List.foldl_cons]
    apply ih
    cases acc with
    | nil => simp [merge_step]
    | cons curr rest =>
      simp only [merge_step]
      by_cases hm : is_mergeable desc curr b = true
      · rw [if_pos hm]
        cases rest with
        | nil => simp
        | cons r2 rs =>
          rw [List.chain'_cons] at h ⊢
          refine ⟨?_, h.2⟩
          rw [is_mergeable_blk_count desc r2 curr (curr.count + 1)]
          exact h.1
      · rw [if_neg hm]
        rw [List.chain'_cons]
        exact ⟨by simpa using hm, h⟩

/-- When consecutive inputs always refuse to merge, the merge loop
appends every element: the open range after processing a prefix is
exactly its last element. -/
lemma merge_fold_of_chain (desc : lsmem_desc) :
    ∀ (l acc : List memory_block),
      List.Chain' (fun a b => is_mergeable desc a b = false) l →
      (∀ a ∈ acc.head?, ∀ b ∈ l.head?, is_mergeable desc a b = false) →
      l.foldl (merge_step desc) acc = l.reverse ++ acc := by
  intro l
  induction l with
  | nil => intro acc _ _; simp
  | cons b bs ih =>
    intro acc hchain hhead
    rw [List.foldl_cons]
    have hstep : merge_step desc acc b = b :: acc := by
      cases acc with
      | nil => rfl
      | cons curr rest =>
        have : is_mergeable desc curr b = false := by
          apply hhead curr _ b <;> simp
        simp [merge_step, this]
    rw [hstep]
    rw [List.chain'_cons'] at hchain
    rw [ih (b :: acc) hchain.2]
    · simp
    · intro a ha c hc
      simp only [List.head?_cons, Option.mem_some_iff] at ha
      subst ha
      exact hchain.1 c hc

/-- Re-running the merge pass on a list whose consecutive elements
refuse to merge returns the list unchanged. -/
lemma read_info_merge_of_chain (desc : lsmem_desc) (l : List memory_block)
    (h : List.Chain' (fun a b => is_mergeable desc a b = false) l) :
    read_info_merge desc l = l := by
  unfold read_info_merge
  rw [merge_fold_of_chain desc l [] h (by simp)]
  simp

/-- Core invariant for disjointness and sorting: folding count-1 blocks
with strictly increasing indices keeps the reversed accumulator
pairwise ordered (every earlier-closed range ends at or before the
start of every later one), provided every accumulated range already
ends at or before the next incoming index. -/
lemma merge_fold_pairwise (desc : lsmem_desc) :
    ∀ (blks acc : List memory_block),
      List.Chain' (fun a b => a.index < b.index) blks →
      (∀ b ∈ blks, b.count = 1) →
      List.Pairwise (fun a b => b.index + b.count ≤ a.index) acc →
      (∀ r ∈ acc, ∀ b ∈ blks.head?, r.index + r.count ≤ b.index) →
      List.Pairwise (fun a b => b.index + b.count ≤ a.index)
        (blks.foldl (merge_step desc) acc) := by
  intro blks
  induction blks with
  | nil => intro acc _ _ hp _; simpa using hp
  | cons b bs ih =>
    intro acc hchain hcnt hpair hbound
    rw [List.foldl_cons]
    rw [List.chain'_cons'] at hchain
    apply ih _ hchain.2 (fun x hx => hcnt x (by simp [hx]))
    · cases acc with
      | nil => simp [merge_step]
      | cons curr rest =>
        simp only [merge_step]
        by_cases hm : is_mergeable desc curr b = true
        · rw [if_pos hm]
          rw [List.pairwise_cons] at hpair ⊢
          exact ⟨fun r hr => by simpa using hpair.1 r hr, hpair.2⟩
        · rw [if_neg hm]
          rw [List.pairwise_cons]
          exact ⟨fun r hr => hbound r hr b (by simp), hpair⟩
    · intro r hr b2 hb2
      have hlt : b.index < b2.index := hchain.1 b2 hb2
      have hbcnt : b.count = 1 := hcnt b (by simp)
      cases acc with
      | nil =>
        simp only [merge_step, List.mem_singleton] at hr
        subst hr
        omega
      | cons curr rest =>
        simp only [merge_step] at hr
        by_cases hm : is_mergeable desc curr b = true
        · rw [if_pos hm] at hr
          have hadj : curr.index + curr.count = b.index :=
            is_mergeable_adjacent desc curr b hm
          rcases List.mem_cons.mp hr with hr | hr
          · subst hr
            have h1 : ({ curr with count := curr.count + 1 } :
                memory_block).index = curr.index := rfl
            have h2 : ({ curr with count := curr.count + 1 } :
                memory_block).count = curr.count + 1 := rfl
            omega
          · have h2 : r.index + r.count ≤ b.index :=
              hbound r (by simp [hr]) b (by simp)
            omega
        · rw [if_neg hm] at hr
          rcases List.mem_cons.mp hr with hr | hr
          · subst hr; omega
          · have h2 : r.index + r.count ≤ b.index :=
              hbound r (by simp [hr]) b (by simp)
            omega

/-- The merge loop never produces a zero-count range from positive
count inputs: a break copies the block, a merge increments. -/
lemma merge_fold_count_pos (desc : lsmem_desc) :
    ∀ (blks acc : List memory_block),
      (∀ b ∈ blks, 1 ≤ b.count) → (∀ r ∈ acc, 1 ≤ r.count) →
      ∀ r ∈ blks.foldl (merge_step desc) acc, 1 ≤ r.count := by
  intro blks
  induction blks with
  | nil => intro acc _ hacc; simpa using hacc
  | cons b bs ih =>
    intro acc hb hacc
    rw [List.foldl_cons]
    apply ih _ (fun x hx => hb x (by simp [hx]))
    intro r hr
    cases acc with
    | nil =>
      simp only [merge_step, List.mem_singleton] at hr
      subst hr
      exact hb _ (List.mem_cons_self _ _)
    | cons curr rest =>
      simp only [merge_step] at hr
      by_cases hm : is_mergeable desc curr b = true
      · rw [if_pos hm] at hr
        rcases List.mem_cons.mp hr with hr | hr
        · subst hr
          have h2 : ({ curr with count := curr.count + 1 } :
              memory_block).count = curr.count + 1 := rfl
          omega
        · exact hacc r (by simp [hr])
      · rw [if_neg hm] at hr
        rcases List.mem_cons.mp hr with hr | hr
        · subst hr; exact hb _ (List.mem_cons_self _ _)
        · exact hacc r (by simp [hr])

/-- Frame property of the merge loop over the whole remaining run: once
at least one range sits above the closed ranges `rest`, no later step
ever modifies `rest`. -/
lemma merge_fold_frame (desc : lsmem_desc) :
    ∀ (blks front rest : List memory_block), front ≠ [] →
      ∃ front2, front2 ≠ [] ∧
        blks.foldl (merge_step desc) (front ++ rest) = front2 ++ rest := by
  intro blks
  induction blks with
  | nil => intro front rest h; exact ⟨front, h, by simp⟩
  | cons b bs ih =>
    intro front rest h
    rw [List.foldl_cons]
    cases front with
    | nil => exact absurd rfl h
    | cons curr f =>
      simp only [List.cons_append, merge_step]
      by_cases hm : is_mergeable desc curr b = true
      · rw [if_pos hm]
        exact ih ({ curr with count := curr.count + 1 } :: f) rest (by simp)
      · rw [if_neg hm]
        exact ih (b :: curr :: f) rest (by simp)

/-! ## Aggregation -/

/-- The totals loop is the pair of bucketed sums: the ONLINE test on
line 323 sends a range to `mem_online` exactly when its state is
Online, and to `mem_offline` exactly when it is one of the other three
states. -/
lemma read_info_totals_eq (block_size : Nat) :
    ∀ (l : List memory_block) (a : Nat × Nat),
      l.foldl
        (fun acc b =>
          if b.state = MemState.Online then
            (acc.1 + block_size * b.count, acc.2)
          else
            (acc.1, acc.2 + block_size * b.count)) a =
      (a.1 + sum_online block_size l, a.2 + sum_offline block_size l) := by
  intro l
  induction l with
  | nil => intro a; simp [sum_online, sum_offline]
  | cons b bs ih =>
    intro a
    rw [List.foldl_cons]
    cases hb : b.state <;>
      simp only [hb, reduceCtorEq, if_true, if_false, reduceIte, ih,
        sum_online, sum_offline, List.filter_cons] <;>
      simp [hb] <;> omega

/-! ## Claim theorems -/

/-- C1: for every merge policy with the list-individually mode off, an
incoming block `b` is merged into the current open range `r` iff all
of: strict adjacency `r.index + r.count = b.index`; state equivalence
not required or `r.state = b.state`; removable equivalence not required
or `r.removable = b.removable`; node equivalence not required, or
node-awareness unsupported, or `r.node = b.node`. -/
theorem C1_merge_decision_iff (desc : lsmem_desc) (r b : memory_block)
    (h : desc.list_all = false) :
    is_mergeable desc r b = true ↔
      (r.index + r.count = b.index ∧
       (desc.want_state = false ∨ r.state = b.state) ∧
       (desc.want_removable = false ∨ r.removable = b.removable) ∧
       (desc.want_node = false ∨ desc.have_nodes = false ∨
         r.node = b.node)) :=
  is_mergeable_true_iff desc r b h

/-- Witness for C1 at the default policy and two adjacent Online
blocks. -/
theorem C1_merge_decision_iff_witness :
    default_desc.list_all = false ∧
    (is_mergeable default_desc (mk_blk 0 MemState.Online)
        (mk_blk 1 MemState.Online) = true ↔
      ((mk_blk 0 MemState.Online).index + (mk_blk 0 MemState.Online).count =
          (mk_blk 1 MemState.Online).index ∧
       (default_desc.want_state = false ∨
         (mk_blk 0 MemState.Online).state = (mk_blk 1 MemState.Online).state) ∧
       (default_desc.want_removable = false ∨
         (mk_blk 0 MemState.Online).removable =
           (mk_blk 1 MemState.Online).removable) ∧
       (default_desc.want_node = false ∨ default_desc.have_nodes = false ∨
         (mk_blk 0 MemState.Online).node = (mk_blk 1 MemState.Online).node))) :=
  ⟨rfl, C1_merge_decision_iff default_desc (mk_blk 0 MemState.Online)
    (mk_blk 1 MemState.Online) rfl⟩

/-- C2: for every input of count-1 classified blocks and every policy,
the counts of the output ranges sum to the number of input blocks. -/
theorem C2_count_preserved (desc : lsmem_desc) (blks : List memory_block)
    (h : ∀ b ∈ blks, b.count = 1) :
    total_count (read_info_merge desc blks) = blks.length := by
  unfold read_info_merge
  have h1 : total_count ((blks.foldl (merge_step desc) []).reverse) =
      total_count (blks.foldl (merge_step desc) []) := by
    unfold total_count
    rw [List.map_reverse, List.sum_reverse]
  rw [h1, merge_fold_total_count desc blks [] h]
  simp [total_count]

/-- Witness for C2 on the scenario B input. -/
theorem C2_count_preserved_witness :
    (∀ b ∈ scenario_b, b.count = 1) ∧
    total_count (read_info_merge default_desc scenario_b) =
      scenario_b.length :=
  ⟨by decide, C2_count_preserved default_desc scenario_b (by decide)⟩

/-- C3: for strictly increasing count-1 inputs, the output ranges are
pairwise non-overlapping (each earlier interval [index, index+count)
ends at or before the next begins) and sorted by ascending index. -/
theorem C3_disjoint_sorted (desc : lsmem_desc) (blks : List memory_block)
    (hinc : List.Chain' (fun a b => a.index < b.index) blks)
    (hcnt : ∀ b ∈ blks, b.count = 1) :
    List.Pairwise (fun r1 r2 => r1.index + r1.count ≤ r2.index)
      (read_info_merge desc blks) ∧
    List.Pairwise (fun r1 r2 => r1.index < r2.index)
      (read_info_merge desc blks) := by
  have hp : List.Pairwise (fun a b => b.index + b.count ≤ a.index)
      (blks.foldl (merge_step desc) []) :=
    merge_fold_pairwise desc blks [] hinc hcnt (by simp) (by simp)
  have hrev : List.Pairwise (fun r1 r2 => r1.index + r1.count ≤ r2.index)
      (read_info_merge desc blks) := by
    unfold read_info_merge
    exact List.pairwise_reverse.mpr hp
  refine ⟨hrev, ?_⟩
  have hpos : ∀ r ∈ read_info_merge desc blks, 1 ≤ r.count := by
    intro r hr
    refine merge_fold_count_pos desc blks []
      (fun b hb => by rw [hcnt b hb]) (by simp) r ?_
    unfold read_info_merge at hr
    exact List.mem_reverse.mp hr
  refine List.Pairwise.imp_of_mem ?_ hrev
  intro r1 r2 h1 h2 hle
  have := hpos r1 h1
  omega

/-- Witness for C3 on the scenario C input (blocks 0 and 2, gap at 1). -/
theorem C3_disjoint_sorted_witness :
    List.Chain' (fun a b => a.index < b.index) scenario_c ∧
    (∀ b ∈ scenario_c, b.count = 1) ∧
    (List.Pairwise (fun r1 r2 => r1.index + r1.count ≤ r2.index)
      (read_info_merge default_desc scenario_c) ∧
     List.Pairwise (fun r1 r2 => r1.index < r2.index)
      (read_info_merge default_desc scenario_c)) :=
  ⟨by simp [scenario_c, mk_blk], by decide,
   C3_disjoint_sorted default_desc scenario_c
     (by simp [scenario_c, mk_blk]) (by decide)⟩

/-- C4: maximality — with the list-individually mode off, any two
adjacent output ranges either fail strict adjacency or differ in at
least one active equivalence attribute (state, removable, or node when
node-awareness is supported). -/
theorem C4_maximality (desc : lsmem_desc) (blks : List memory_block)
    (h : desc.list_all = false) :
    List.Chain' (fun r1 r2 =>
      r1.index + r1.count ≠ r2.index ∨
      (desc.want_state = true ∧ r1.state ≠ r2.state) ∨
      (desc.want_removable = true ∧ r1.removable ≠ r2.removable) ∨
      (desc.want_node = true ∧ desc.have_nodes = true ∧ r1.node ≠ r2.node))
      (read_info_merge desc blks) := by
  have hc : List.Chain' (fun a b => is_mergeable desc b a = false)
      (blks.foldl (merge_step desc) []) :=
    merge_fold_chain desc blks [] (by simp)
  have hc2 : List.Chain' (fun r1 r2 => is_mergeable desc r1 r2 = false)
      (read_info_merge desc blks) := by
    unfold read_info_merge
    exact List.chain'_reverse.mpr hc
  refine hc2.imp ?_
  intro a b hab
  have hnot : ¬(a.index + a.count = b.index ∧
      (desc.want_state = false ∨ a.state = b.state) ∧
      (desc.want_removable = false ∨ a.removable = b.removable) ∧
      (desc.want_node = false ∨ desc.have_nodes = false ∨
        a.node = b.node)) := by
    rw [← is_mergeable_true_iff desc a b h]
    simp [hab]
  by_contra hcon
  push_neg at hcon
  obtain ⟨h1, h2, h3, h4⟩ := hcon
  apply hnot
  refine ⟨h1, ?_, ?_, ?_⟩
  · cases hws : desc.want_state with
    | false => exact Or.inl rfl
    | true => exact Or.inr (h2 hws)
  · cases hwr : desc.want_removable with
    | false => exact Or.inl rfl
    | true => exact Or.inr (h3 hwr)
  · cases hwn : desc.want_node with
    | false => exact Or.inl rfl
    | true =>
      cases hhn : desc.have_nodes with
      | false => exact Or.inr (Or.inl rfl)
      | true => exact Or.inr (Or.inr (h4 hwn hhn))

/-- Witness for C4 at the default policy on the scenario B input. -/
theorem C4_maximality_witness :
    default_desc.list_all = false ∧
    List.Chain' (fun r1 r2 =>
      r1.index + r1.count ≠ r2.index ∨
      (default_desc.want_state = true ∧ r1.state ≠ r2.state) ∨
      (default_desc.want_removable = true ∧ r1.removable ≠ r2.removable) ∨
      (default_desc.want_node = true ∧ default_desc.have_nodes = true ∧
        r1.node ≠ r2.node))
      (read_info_merge default_desc scenario_b) :=
  ⟨rfl, C4_maximality default_desc scenario_b rfl⟩

/-- C5: with the list-individually flag active, the merge pass emits
one range per input block and every output range has count 1. -/
theorem C5_list_all_individual (desc : lsmem_desc)
    (h : desc.list_all = true) (blks : List memory_block)
    (hc : ∀ b ∈ blks, b.count = 1) :
    (read_info_merge desc blks).length = blks.length ∧
    ∀ r ∈ read_info_merge desc blks, r.count = 1 := by
  have he : read_info_merge desc blks = blks := by
    unfold read_info_merge
    rw [merge_fold_list_all desc h blks []]
    simp
  rw [he]
  exact ⟨rfl, hc⟩

/-- Witness for C5: scenario D (the `-a` flag on the scenario A input). -/
theorem C5_list_all_individual_witness :
    all_desc.list_all = true ∧
    (∀ b ∈ scenario_a, b.count = 1) ∧
    ((read_info_merge all_desc scenario_a).length = scenario_a.length ∧
     ∀ r ∈ read_info_merge all_desc scenario_a, r.count = 1) :=
  ⟨rfl, by decide,
   C5_list_all_individual all_desc rfl scenario_a (by decide)⟩

/-- C6: idempotence — re-running the merge pass on its own output,
treating each range as one pre-merged unit, returns the same list,
under every policy. -/
theorem C6_idempotent (desc : lsmem_desc) (blks : List memory_block) :
    read_info_merge desc (read_info_merge desc blks) =
      read_info_merge desc blks := by
  apply read_info_merge_of_chain
  have hc : List.Chain' (fun a b => is_mergeable desc b a = false)
      (blks.foldl (merge_step desc) []) :=
    merge_fold_chain desc blks [] (by simp)
  unfold read_info_merge
  exact List.chain'_reverse.mpr hc

/-- C7: the aggregator computes online-bytes as the sum of
count * block_size over Online ranges and offline-bytes as that sum
over Offline, GoingOffline and Unknown ranges; on the scenario B input
under the default policy it yields three ranges with online total
4 * block_size and offline total 1 * block_size. -/
theorem C7_aggregator (desc : lsmem_desc) (block_size : Nat)
    (blks : List memory_block) :
    (read_info desc block_size blks).2.1 =
      sum_online block_size (read_info desc block_size blks).1 ∧
    (read_info desc block_size blks).2.2 =
      sum_offline block_size (read_info desc block_size blks).1 ∧
    (read_info default_desc block_size scenario_b).1.length = 3 ∧
    (read_info default_desc block_size scenario_b).2.1 = 4 * block_size ∧
    (read_info default_desc block_size scenario_b).2.2 = 1 * block_size := by
  have hgen : ∀ (l : List memory_block),
      read_info_totals block_size l =
        (sum_online block_size l, sum_offline block_size l) := by
    intro l
    unfold read_info_totals
    rw [read_info_totals_eq]
    simp
  have hri : ∀ (d : lsmem_desc) (bl : List memory_block),
      read_info d block_size bl =
        (read_info_merge d bl,
         read_info_totals block_size (read_info_merge d bl)) :=
    fun d bl => rfl
  have hsb : read_info_merge default_desc scenario_b =
      [{ index := 0, count := 2, state := MemState.Online, node := 0,
         removable := false },
       { index := 2, count := 1, state := MemState.Offline, node := 0,
         removable := false },
       { index := 3, count := 2, state := MemState.Online, node := 0,
         removable := false }] := by decide
  refine ⟨?_, ?_, ?_, ?_, ?_⟩
  · rw [hri, hgen]
  · rw [hri, hgen]
  · rw [hri, hsb]
    rfl
  · rw [hri, hsb, hgen]
    simp [sum_online]
    omega
  · rw [hri, hsb, hgen]
    simp [sum_offline]

/-- C8: the classifier maps "offline" to Offline, "online" to Online,
"going-offline" to GoingOffline, and any other readable value to
Unknown without failing; every produced block has count 1, and a fatal
error occurs only when the state attribute cannot be read at all. -/
theorem C8_classifier (hn rem : Bool) (idx : Nat) (nd : Int)
    (s t : String) (h1 : s ≠ "offline") (h2 : s ≠ "online")
    (h3 : s ≠ "going-offline") :
    classify_state "offline" = MemState.Offline ∧
    classify_state "online" = MemState.Online ∧
    classify_state "going-offline" = MemState.GoingOffline ∧
    classify_state s = MemState.Unknown ∧
    memory_block_read_attrs hn idx rem (some t) nd =
      Except.ok { index := idx, count := 1, state := classify_state t,
                  removable := rem, node := if hn then nd else 0 } ∧
    (memory_block_read_attrs hn idx rem none nd).isOk = false := by
  refine ⟨rfl, rfl, rfl, ?_, rfl, rfl⟩
  unfold classify_state
  rw [if_neg h1, if_neg h2, if_neg h3]

/-- Witness for C8 at an unrecognized state string. -/
theorem C8_classifier_witness :
    ("weird" ≠ "offline") ∧ ("weird" ≠ "online") ∧
    ("weird" ≠ "going-offline") ∧
    (classify_state "offline" = MemState.Offline ∧
     classify_state "online" = MemState.Online ∧
     classify_state "going-offline" = MemState.GoingOffline ∧
     classify_state "weird" = MemState.Unknown ∧
     memory_block_read_attrs false 0 false (some "online") 0 =
       Except.ok { index := 0, count := 1, state := classify_state "online",
                   removable := false,
                   node := if false then (0 : Int) else 0 } ∧
     (memory_block_read_attrs false 0 false none 0).isOk = false) :=
  ⟨by decide, by decide, by decide,
   C8_classifier false false 0 0 "weird" "online"
     (by decide) (by decide) (by decide)⟩

/-- C9: the merge pass maps empty input to the empty range list and a
single count-1 block to one one-block range, with no failure mode,
while at the system boundary a non-positive directory-scan result is a
fatal enumeration error before the merge runs. -/
theorem C9_edge_cases (desc : lsmem_desc) (b : memory_block)
    (hone : b.count = 1) (bse : Bool) (ndirs fstnode : Int)
    (hnd : ndirs ≤ 0) :
    read_info_merge desc [] = [] ∧
    read_info_merge desc [b] = [b] ∧
    (∀ r ∈ read_info_merge desc [b], r.count = 1) ∧
    (read_basic_info bse ndirs fstnode).isOk = false := by
  have h2 : read_info_merge desc [b] = [b] := rfl
  refine ⟨rfl, h2, ?_, ?_⟩
  · rw [h2]
    intro r hr
    rw [List.mem_singleton] at hr
    subst hr
    exact hone
  · cases bse <;> simp [read_basic_info, hnd, Except.isOk, Except.toBool]

/-- Witness for C9 with a count-1 block and a failed scan. -/
theorem C9_edge_cases_witness :
    (mk_blk 7 MemState.Offline).count = 1 ∧ ((0 : Int) ≤ 0) ∧
    (read_info_merge default_desc [] = [] ∧
     read_info_merge default_desc [mk_blk 7 MemState.Offline] =
       [mk_blk 7 MemState.Offline] ∧
     (∀ r ∈ read_info_merge default_desc [mk_blk 7 MemState.Offline],
       r.count = 1) ∧
     (read_basic_info true 0 (-1)).isOk = false) :=
  ⟨by decide, by decide,
   C9_edge_cases default_desc (mk_blk 7 MemState.Offline) (by decide)
     true 0 (-1) (by decide)⟩

/-- C10: frame property — a merge only increments the open range's
count, leaving its index, state, removable and node fields unchanged,
and every previously closed range is left untouched by the step and by
all later merge decisions. -/
theorem C10_frame (desc : lsmem_desc) (curr blk : memory_block)
    (rest blks : List memory_block)
    (h : is_mergeable desc curr blk = true) :
    merge_step desc (curr :: rest) blk =
      { curr with count := curr.count + 1 } :: rest ∧
    ∃ front, front ≠ [] ∧
      blks.foldl (merge_step desc) (merge_step desc (curr :: rest) blk) =
        front ++ rest := by
  have hstep : merge_step desc (curr :: rest) blk =
      { curr with count := curr.count + 1 } :: rest := by
    simp [merge_step, h]
  refine ⟨hstep, ?_⟩
  rw [hstep]
  obtain ⟨f2, hf2, heq⟩ := merge_fold_frame desc blks
    [{ curr with count := curr.count + 1 }] rest (by simp)
  exact ⟨f2, hf2, by simpa using heq⟩

/-- Witness for C10 at a concrete mergeable pair. -/
theorem C10_frame_witness :
    is_mergeable default_desc (mk_blk 0 MemState.Online)
      (mk_blk 1 MemState.Online) = true ∧
    (merge_step default_desc [mk_blk 0 MemState.Online]
        (mk_blk 1 MemState.Online) =
      [{ mk_blk 0 MemState.Online with
          count := (mk_blk 0 MemState.Online).count + 1 }] ∧
     ∃ front, front ≠ [] ∧
       List.foldl (merge_step default_desc)
         (merge_step default_desc [mk_blk 0 MemState.Online]
           (mk_blk 1 MemState.Online)) [] = front ++ []) :=
  ⟨by decide,
   C10_frame default_desc (mk_blk 0 MemState.Online)
     (mk_blk 1 MemState.Online) [] [] (by decide)⟩
